import Mathlib

/-!
Verification development for the rlog structured logging library.

The Go sources are shallowly embedded below.  Go strings are modelled as
Lean `String` manipulated through their character lists (so that every
definition is executable by kernel reduction), machine `int` values
(including the `Level` type, which is `type Level int` in the source) are
modelled as `Int`, and fallible operations return `Option`.
-/

namespace Rlog

/-- ASCII upper-casing of one character, as Go's `strings.ToUpper` acts on
the ASCII level-name tokens fed to it. -/
def upChar (c : Char) : Char :=
  if 'a' ≤ c ∧ c ≤ 'z' then Char.ofNat (c.toNat - 32) else c

/-- Go `strings.ToUpper`, restricted to the ASCII strings the parser feeds it. -/
def goToUpper (s : String) : String :=
  String.mk (s.toList.map upChar)

/-- Core of Go `strings.Split` with a one-character separator, over char lists. -/
def splitCh (sep : Char) : List Char → List (List Char)
  | [] => [[]]
  | c :: r =>
    let rest := splitCh sep r
    if c = sep then [] :: rest
    else
      match rest with
      | h :: t => (c :: h) :: t
      | [] => [[c]]

/-- Go `strings.Split(s, sep)` for a one-character separator: the pieces of `s`
between occurrences of `sep`; the empty string yields `[""]`. -/
def goSplit (s : String) (sep : Char) : List String :=
  (splitCh sep s.toList).map String.mk

/-- Digit-sequence value: `some` of the decimal value when the list is a
non-empty run of ASCII digits, else `none`. Helper for `atoi?`. -/
def digitsVal : List Char → Nat → Option Nat
  | [], acc => some acc
  | c :: r, acc =>
    if c.isDigit then digitsVal r (10 * acc + (c.toNat - 48)) else none

/-- Go `strconv.Atoi`: optional sign followed by at least one digit
(overflow, which cannot occur for the small levels used here, is not
modelled). -/
def atoi? (s : String) : Option Int :=
  match s.toList with
  | [] => none
  | '+' :: rest => if rest = [] then none else (digitsVal rest 0).map Int.ofNat
  | '-' :: rest => if rest = [] then none else (digitsVal rest 0).map (fun n => -(n : Int))
  | l => (digitsVal l 0).map Int.ofNat

/-- Go `path/filepath.Base`: `"."` for the empty path, otherwise the last
path element after stripping trailing separators (`"/"` if only separators). -/
def baseName (s : String) : String :=
  if s = "" then "."
  else
    let l := (s.toList.reverse.dropWhile (fun c => c = '/')).reverse
    let last := (l.reverse.takeWhile (fun c => c ≠ '/')).reverse
    if last = [] then "/" else String.mk last

/-- Go `path/filepath` glob character-escape reader (`getEsc`): one literal
class character, possibly backslash-escaped; `-` and `]` are rejected here. -/
def globEsc : List Char → Option (Char × List Char)
  | '-' :: _ => none
  | ']' :: _ => none
  | '\\' :: c :: r => some (c, r)
  | '\\' :: [] => none
  | c :: r => some (c, r)
  | [] => none

/-- Parse the body of a `[...]` character class into a list of ranges, as Go's
`filepath.Match` does; `none` for a malformed class.  `first` is true before
any range was read (a leading `]` is then malformed).  Fuel-driven so the
definition is structurally recursive; the callers always supply enough fuel. -/
def globClass : Nat → List Char → Bool → List (Char × Char) →
    Option (List (Char × Char) × List Char)
  | 0, _, _, _ => none
  | _ + 1, ']' :: rest, first, acc => if first then none else some (acc, rest)
  | fuel + 1, l, _, acc =>
    match globEsc l with
    | none => none
    | some (lo, r1) =>
      match r1 with
      | '-' :: r2 =>
        match globEsc r2 with
        | none => none
        | some (hi, r3) => globClass fuel r3 false (acc ++ [(lo, hi)])
      | _ => globClass fuel r1 false (acc ++ [(lo, lo)])

/-- Whether a character falls in one of the parsed class ranges. -/
def rangesContain (ranges : List (Char × Char)) (c : Char) : Bool :=
  ranges.any (fun p => p.1 ≤ c && c ≤ p.2)

/-- Go `path/filepath.Match` (the glob collaborator of the filter engine):
`*` matches any run of non-separator characters, `?` one non-separator
character, `[...]`/`[^...]` a character class, `\\c` a literal; a malformed
pattern matches nothing (the caller discards the error).  Fuel-driven with
the same bound the wrapper supplies. -/
def globMatchAux : Nat → List Char → List Char → Bool
  | 0, _, _ => false
  | _ + 1, [], n => n = []
  | fuel + 1, '*' :: p, n =>
    globMatchAux fuel p n ||
      (match n with
       | [] => false
       | c :: n' => c ≠ '/' && globMatchAux fuel ('*' :: p) n')
  | fuel + 1, '?' :: p, n =>
    match n with
    | c :: n' => c ≠ '/' && globMatchAux fuel p n'
    | [] => false
  | fuel + 1, '\\' :: c :: p, n =>
    match n with
    | d :: n' => d = c && globMatchAux fuel p n'
    | [] => false
  | _ + 1, '\\' :: [], _ => false
  | fuel + 1, '[' :: rest, n =>
    let negBody : Bool × List Char :=
      match rest with
      | '^' :: r => (true, r)
      | r => (false, r)
    match globClass (fuel + 1) negBody.2 true [] with
    | none => false
    | some (ranges, prest) =>
      match n with
      | [] => false
      | c :: n' => (rangesContain ranges c != negBody.1) && globMatchAux fuel prest n'
  | fuel + 1, c :: p, n =>
    match n with
    | d :: n' => d = c && globMatchAux fuel p n'
    | [] => false

/-- Go `filepath.Match pattern name` with the error discarded, as
`filter.match` uses it. -/
def globMatch (pattern name : String) : Bool :=
  globMatchAux (pattern.toList.length + name.toList.length + 1) pattern.toList name.toList

/-! The known log levels (`type Level int`; constants `levelNone` … `levelTrace`). -/

def levelNone : Int := 0
def levelCrit : Int := 1
def levelErr : Int := 2
def levelWarn : Int := 3
def levelInfo : Int := 4
def levelDebug : Int := 5
def levelTrace : Int := 6

/-- `notATrace`/`noTraceOutput` sentinel. -/
def noTraceOutput : Int := -1

/-- Translation map from level to string representation (`levelStrings` /
`levelBytes`; a missing key yields Go's zero value `""`). -/
def levelString (lvl : Int) : String :=
  if lvl = levelTrace then "TRACE"
  else if lvl = levelDebug then "DEBUG"
  else if lvl = levelInfo then "INFO"
  else if lvl = levelWarn then "WARN"
  else if lvl = levelErr then "ERROR"
  else if lvl = levelCrit then "CRITICAL"
  else if lvl = levelNone then "NONE"
  else ""

/-- Translation from level string to number (`levelNumbers`). -/
def levelNumbers? (s : String) : Option Int :=
  if s = "TRACE" then some levelTrace
  else if s = "DEBUG" then some levelDebug
  else if s = "INFO" then some levelInfo
  else if s = "WARN" then some levelWarn
  else if s = "ERROR" then some levelErr
  else if s = "CRITICAL" then some levelCrit
  else if s = "NONE" then some levelNone
  else none

/-- `filter` struct: filename pattern and level to match log messages against. -/
structure RFilter where
  Pattern : String
  Level : Int
  deriving DecidableEq, Repr

/-- `filterSpec` struct: the ordered filter chain plus the
`hasAnyFilterAPattern` flag. -/
structure RFilterSpec where
  filters : List RFilter
  hasAnyFilterAPattern : Bool
  deriving DecidableEq, Repr

/-- `filter.match`: first component tells whether the filename matched the
pattern (an empty pattern always matches), second whether the message level
passes the filter's threshold. -/
def filterMatch (f : RFilter) (filename : String) (level : Int) : Bool × Bool :=
  let m := if f.Pattern ≠ "" then globMatch f.Pattern (baseName filename) else true
  if m then (true, decide (level ≤ f.Level)) else (false, false)

/-- The iteration inside `filterSpec.matchfilters`: return the first filter's
verdict whose pattern matched. -/
def matchLoop (filename : String) (level : Int) : List RFilter → Bool
  | [] => false
  | f :: rest =>
    let r := filterMatch f filename level
    if r.1 then r.2 else matchLoop filename level rest

/-- `filterSpec.matchfilters`: no filters match anything; otherwise the first
matching filter decides. -/
def matchfilters (spec : RFilterSpec) (filename : String) (level : Int) : Bool :=
  if spec.filters.length = 0 then false
  else matchLoop filename level spec.filters

/-- Claim-side restatement of the evaluation order (C1's wording): the first
filter in chain order whose pattern matches the base filename (an empty
pattern always matching) alone decides the result as `level ≤ threshold`;
no matching filter means suppressed. -/
def firstMatchDecision (filters : List RFilter) (filename : String) (level : Int) : Bool :=
  match filters.find? (fun f => f.Pattern = "" || globMatch f.Pattern (baseName filename)) with
  | some f => decide (level ≤ f.Level)
  | none => false

end Rlog

namespace Rlog

/-! ### `filterSpec.fromString` — parsing a filter specification string -/

/-- The mutable state threaded through `fromString`'s token loop: the
patterned filters appended so far, the provisional global level, and the
`hasAnyFilterAPattern` flag.  (Diagnostics go to stderr in the source, not
into this state; they are modelled separately by `tokenIssue`.) -/
structure ParseState where
  pats : List RFilter
  globalLevel : Int
  hasPattern : Bool
  deriving DecidableEq, Repr

/-- The level token's interpretation on one axis, mirroring the two branches
of the loop body: a numeric value on the trace axis, a canonical level name
(upper-cased, `TRACE` rejected) on the log axis; `none` means the token is
skipped. -/
def parseLevelToken (isTraceLevels : Bool) (levelToken : String) : Option Int :=
  if isTraceLevels then atoi? levelToken
  else
    match levelNumbers? (goToUpper levelToken) with
    | none => none
    | some lvl => if lvl = levelTrace then none else some lvl

/-- One iteration of the `fromString` loop over a comma-separated token `f`:
split on `=`, classify as global or patterned, parse the level, and either
skip (malformed) or record the filter / provisional global level. -/
def parseToken (isTraceLevels : Bool) (st : ParseState) (f : String) : ParseState :=
  if (goSplit f '=').length = 1 then
    match parseLevelToken isTraceLevels ((goSplit f '=').headD "") with
    | none => st
    | some lvl => { st with globalLevel := lvl }
  else if (goSplit f '=').length = 2 then
    match parseLevelToken isTraceLevels (((goSplit f '=').drop 1).headD "") with
    | none => st
    | some lvl =>
      if (goSplit f '=').headD "" = "" then { st with globalLevel := lvl }
      else
        { st with pats := st.pats ++ [⟨(goSplit f '=').headD "", lvl⟩], hasPattern := true }
  else st

/-- The level token of a filter expression: the whole token when it has no
`=`, the part after the `=` otherwise. -/
def levelPartOf (t : String) : String :=
  if (goSplit t '=').length = 1 then (goSplit t '=').headD ""
  else ((goSplit t '=').drop 1).headD ""

/-- The diagnostic `rlogIssue` emits for one token, if any: tokens with more
than one `=` are always reported; a level token that fails to parse is
reported only when that level token is non-empty. -/
def tokenIssue (isTraceLevels : Bool) (f : String) : Option String :=
  if (goSplit f '=').length = 1 ∨ (goSplit f '=').length = 2 then
    match parseLevelToken isTraceLevels (levelPartOf f) with
    | none =>
      if levelPartOf f ≠ "" then some ("bad level " ++ levelPartOf f) else none
    | some _ => none
  else some ("malformed " ++ f)

/-- `fromString` after the input string has been split on commas: fold the
token loop, then append the single global (pattern-less) filter — except on
the trace axis when the global level is the `noTraceOutput` sentinel, where
the chain is left without it (possibly empty). -/
def fromTokens (toks : List String) (isTraceLevels : Bool) (globalLevelDefault : Int) :
    RFilterSpec :=
  let st := toks.foldl (parseToken isTraceLevels) ⟨[], globalLevelDefault, false⟩
  ⟨if !isTraceLevels || st.globalLevel ≠ noTraceOutput
    then st.pats ++ [⟨"", st.globalLevel⟩] else st.pats,
   st.hasPattern⟩

/-- `filterSpec.fromString s isTraceLevels globalLevelDefault` (on a fresh
`filterSpec`, as `NewLogger` uses it). -/
def fromString (s : String) (isTraceLevels : Bool) (globalLevelDefault : Int) : RFilterSpec :=
  fromTokens (goSplit s ',') isTraceLevels globalLevelDefault

/-- A token is malformed for an axis exactly when the loop skips it: more
than one `=`, or a level part that does not parse on that axis (unknown or
`TRACE` level name on the log axis, non-numeric level on the trace axis). -/
def malformedTok (isTraceLevels : Bool) (f : String) : Bool :=
  if (goSplit f '=').length = 1 then
    (parseLevelToken isTraceLevels ((goSplit f '=').headD "")).isNone
  else if (goSplit f '=').length = 2 then
    (parseLevelToken isTraceLevels (((goSplit f '=').drop 1).headD "")).isNone
  else true

/-- A token that supplies a valid global threshold `lvl` on an axis: no `=`
and a level part parsing to `lvl` (the `matchToken = ""` assignment path also
reaches the global slot via `pattern=`-less tokens of the form `=`level). -/
def validGlobalTok (isTraceLevels : Bool) (f : String) (lvl : Int) : Prop :=
  let tokens := goSplit f '='
  (tokens.length = 1 ∧ parseLevelToken isTraceLevels (tokens.headD "") = some lvl) ∨
    (tokens.length = 2 ∧ tokens.headD "" = "" ∧
      parseLevelToken isTraceLevels ((tokens.drop 1).headD "") = some lvl)

/-- A token that updates the global slot at all (used to state last-wins). -/
def touchesGlobal (isTraceLevels : Bool) (f : String) : Prop :=
  ∃ lvl, validGlobalTok isTraceLevels f lvl

/-- The patterned filter a single token contributes, if any (claim side,
following C5's wording): a token of the form `pattern=level` with a
non-empty pattern and a level valid on the axis contributes exactly
`(pattern, level)`; every other token contributes no patterned filter. -/
def tokenFilter (isTraceLevels : Bool) (t : String) : Option RFilter :=
  if (goSplit t '=').length = 2 then
    match parseLevelToken isTraceLevels (((goSplit t '=').drop 1).headD "") with
    | none => none
    | some lvl =>
      if (goSplit t '=').headD "" = "" then none
      else some ⟨(goSplit t '=').headD "", lvl⟩
  else none

/-- The patterned filters of a whole token list, in token order (claim side):
each token's contribution, kept in the order the tokens appear. -/
def patternedOf (isTraceLevels : Bool) (toks : List String) : List RFilter :=
  toks.filterMap (tokenFilter isTraceLevels)

end Rlog

namespace Rlog

/-! ### Entry and the two formatters -/

/-- `Entry` (fields relevant to formatting): the time string (empty when
time logging is off), level, trace sub-level, the pre-rendered fields
fragment, and the message. -/
structure REntry where
  Time : String
  Level : Int
  TraceLevel : Int
  FieldsCache : String
  Message : String
  deriving DecidableEq, Repr

/-- The message escape in `TextFormatter.Format`:
`bytes.Replace(msg, textFormatterQuoteArr, textFormatterQuoteEscaped, -1)`,
where the replacement constant is the raw bytes backslash-backslash-quote, so
every double quote becomes those three bytes. -/
def escMsgText (m : String) : String :=
  String.mk (m.toList.flatMap (fun c => if c = '"' then ['\\', '\\', '"'] else [c]))

/-- Decimal rendering of a non-negative trace sub-level (`strconv.Itoa` as
used for `entry.TraceLevel > notATrace`). -/
def itoa (i : Int) : String := toString i

/-- `TextFormatter.Format`: optional `date="..." ` segment, `level=` and the
level token (the computed pad width `lw` is never applied in this source),
optional `(N)` trace suffix, optional pre-rendered fields fragment, optional
` msg="` segment with the quote-escaped message, then a closing quote and a
newline. -/
def textFormat (e : REntry) : String :=
  (if e.Time ≠ "" then "date=\"" ++ e.Time ++ "\" " else "")
    ++ "level=" ++ levelString e.Level
    ++ (if e.Level = levelTrace ∧ e.TraceLevel > noTraceOutput
        then "(" ++ itoa e.TraceLevel ++ ")" else "")
    ++ (if e.FieldsCache ≠ "" then " " ++ e.FieldsCache else "")
    ++ (if e.Message ≠ "" then " msg=\"" ++ escMsgText e.Message else "")
    ++ "\"" ++ "\n"

/-- The single-pass value escape built by
`strings.NewReplacer("\x22", "\\\x22", "\\", "\\\\")` in
`TextFormatter.FormatField`: a quote becomes backslash-quote, a backslash
becomes two backslashes, scanning left to right so no character produced by
one substitution is seen again by the other. -/
def textEscapeValue : List Char → List Char
  | [] => []
  | c :: r =>
    (if c = '"' then ['\\', '"'] else if c = '\\' then ['\\', '\\'] else [c])
      ++ textEscapeValue r

/-- Whether a stringified value is wrapped in curly braces
(`strings.HasPrefix(s, openBrace) && strings.HasSuffix(s, closeBrace)`). -/
def braceWrapped (s : String) : Bool :=
  (s.toList.head? = some '{') && (s.toList.getLast? = some '}')

/-- `strings.ContainsAny(s, quote-space)`: the value contains a double quote
or a space. -/
def containsQuoteOrSpace (s : String) : Bool :=
  s.toList.any (fun c => c = '"' || c = ' ')

/-- `TextFormatter.FormatField` on an already-stringified value: quote and
escape the value only when it is not brace-wrapped and contains a quote or a
space. -/
def textFormatField (key s : String) : String :=
  if !braceWrapped s && containsQuoteOrSpace s then
    key ++ "=\"" ++ String.mk (textEscapeValue s.toList) ++ "\""
  else
    key ++ "=" ++ s

/-- The loop of `TextFormatter.FormatFields` over the flat
`(key, value, key, value, …)` list (values already stringified): entry `i/2`
of the result slice is `FormatField fields[i] fields[i+1]` for each even `i`;
`none` models the out-of-bounds read `fields[i+1]` that a final unpaired key
triggers. -/
def textFormatFieldsPairs : List String → Option (List String)
  | [] => some []
  | _ :: [] => none
  | k :: v :: rest => (textFormatFieldsPairs rest).map (fun t => textFormatField k v :: t)

/-- `TextFormatter.FormatFields`: the rendered pairs joined with the
separator (a single space). -/
def textFormatFields (fields : List String) : Option String :=
  (textFormatFieldsPairs fields).map (String.intercalate " ")

/-- The `i`-th loop iteration of `FormatFields`/`formatFields` reads indices
`i` and `i+1`; this is the full list of indices read from `fields` for a
list of length `n`. -/
def fieldsReadIndices (n : Nat) : List Nat :=
  ((List.range n).filter (fun i => i % 2 = 0)).flatMap (fun i => [i, i + 1])

/-- The value escape of `defaultFormatter.formatField`, built from the same
`strings.NewReplacer` call as the text formatter's. -/
def defaultEscapeValue : List Char → List Char
  | [] => []
  | c :: r =>
    (if c = '"' then ['\\', '"'] else if c = '\\' then ['\\', '\\'] else [c])
      ++ defaultEscapeValue r

/-- `defaultFormatter.formatField` on an already-stringified value, with the
key run through the level color `cl` (the identity when colors are disabled,
i.e. when the sink is not a terminal). -/
def defaultFormatField (cl : String → String) (key s : String) : String :=
  if !braceWrapped s && containsQuoteOrSpace s then
    cl key ++ "=\"" ++ String.mk (defaultEscapeValue s.toList) ++ "\""
  else
    cl key ++ "=" ++ s

/-- `fmt.Sprintf` padding `%-Ns`: left-justify to width `w` with spaces. -/
def padRight (w : Nat) (s : String) : String :=
  s ++ String.mk (List.replicate (w - s.toList.length) ' ')

/-- `fmt.Sprintf` padding `%0Nd` for a non-negative value: zero-pad the
decimal form to width `w`. -/
def padZero (w : Nat) (i : Int) : String :=
  let d := itoa i
  String.mk (List.replicate (w - d.toList.length) '0') ++ d

/-- The `Entry` shape consumed by `defaultFormatter.Format` in the variant
the claims cite (`Fields` is the flat array; caller info reduced to the
`PID > 0` / `GID > 0` presence tests, which are all this formatter reads
besides the formatted block itself, here omitted as the claims never enable
caller info). -/
structure REntryD where
  Time : String
  Level : Int
  TraceLevel : Int
  Fields : List String
  Message : String
  deriving DecidableEq, Repr

/-- `defaultFormatter.formatFields` (with colors disabled): the result slice
is created with `len(entry.Fields)` entries, only the first half of which is
ever assigned, so joining leaves trailing separators; `none` again models
the out-of-bounds read on an odd-length list. -/
def defaultFormatFields (fields : List String) : Option String :=
  (textFormatFieldsPairs fields).map (fun filled =>
    String.intercalate " " (filled ++ List.replicate (fields.length - filled.length) ""))

/-- `defaultFormatter.Format` with colors disabled and no caller info: time,
the first four bytes of the level token, the `[%05d]` trace counter, the
message (left-justified to `Width = 60` only when fields are present), the
fields block, and a newline.  The message bytes are emitted with no quote
escaping.  `none` propagates the out-of-bounds panic of `formatFields` on an
odd-length field list. -/
def defaultFormat (e : REntryD) : Option String :=
  let hasFields := e.Fields.length > 0
  let trcLvl : Int :=
    if e.Level = levelTrace ∧ e.TraceLevel > noTraceOutput then e.TraceLevel else 0
  (if hasFields then defaultFormatFields e.Fields else some "").map (fun fblock =>
    (if e.Time ≠ "" then e.Time ++ " " else "")
      ++ String.mk ((levelString e.Level).toList.take 4)
      ++ "[" ++ padZero 5 trcLvl ++ "]"
      ++ (if e.Message ≠ "" then
            " " ++ (if hasFields then padRight 60 e.Message else e.Message)
          else "")
      ++ (if hasFields then " " ++ fblock else "")
      ++ "\n")

end Rlog

namespace Rlog

/-! ### Logger core: `NewLogger`, `BasicLog`, `Trace` -/

/-- The observable steps of one `logger.BasicLog` call, in program order:
pool acquisition of the `Entry`, building the message string, formatting the
time stamp, resolving the caller, the filter decision, invoking the
formatter, writing to the sink, and returning the `Entry` to the pool. -/
inductive LogEvent where
  | entryAcquire
  | messageBuild
  | timeFormat
  | callerResolve
  | filterDecide (allowed : Bool)
  | format
  | write
  | entryRelease
  deriving DecidableEq, Repr

/-- The logger state `BasicLog` consults (filter specs and the settings
flags; sinks and formatter selection are fixed to the text formatter and a
single stream sink, the only formatter in this variant). -/
structure RLogger where
  logFilterSpec : RFilterSpec
  traceFilterSpec : RFilterSpec
  logNoTime : Bool
  settingShowCallerInfo : Bool
  settingShowGoroutineID : Bool
  deriving DecidableEq, Repr

/-- `NewLogger` (the filter initialization the claims cite): the trace spec
is parsed with the `noTraceOutput` default, the log spec with the
`levelInfo` default. -/
def newLogger (logLevel traceLevel : String) (logNoTime : Bool)
    (showCallerInfo showGoroutineID : Bool) : RLogger :=
  { logFilterSpec := fromString logLevel false levelInfo
    traceFilterSpec := fromString traceLevel true noTraceOutput
    logNoTime := logNoTime
    settingShowCallerInfo := showCallerInfo
    settingShowGoroutineID := showGoroutineID }

/-- `logger.BasicLog logLevel traceLevel additionalInformation …` with the
message already substituted (`fmt.Sprintf`/`fmt.Sprint` is the external
collaborator producing `msg`), the caller identity `callerFile` standing for
what `runtime.Caller` resolves, and `nowStr` for the formatted wall clock.
Returns the event trace and the line handed to the sink (`none` when the
call is suppressed).  The entry is acquired, the message is built and the
time is formatted before any filter is consulted; the deferred
`entryPool.Put` runs on every exit path.  The Go locals are split into the
named helpers below. -/
def basicLogEv0 (l : RLogger) : List LogEvent :=
  [LogEvent.entryAcquire, LogEvent.messageBuild]
    ++ (if l.logNoTime then [] else [LogEvent.timeFormat])

/-- The `Entry` as populated by `BasicLog` before any filter is consulted. -/
def basicLogEntry (l : RLogger) (logLevel traceLevel : Int) (ai msg nowStr : String) : REntry :=
  ⟨if l.logNoTime then "" else nowStr, logLevel, traceLevel, ai, msg⟩

/-- The `allowLog` computation of `BasicLog`: the log-level chain decides
non-trace calls, the trace chain decides trace calls, against the resolved
filename. -/
def basicLogAllowed (l : RLogger) (logLevel traceLevel : Int) (fn : String) : Bool :=
  if traceLevel = noTraceOutput then matchfilters l.logFilterSpec fn logLevel
  else matchfilters l.traceFilterSpec fn traceLevel

def basicLog (l : RLogger) (logLevel traceLevel : Int) (ai msg callerFile nowStr : String) :
    List LogEvent × Option String :=
  if l.settingShowCallerInfo || l.settingShowGoroutineID
      || (l.logFilterSpec.hasAnyFilterAPattern && l.logFilterSpec.filters.length > 0)
      || (l.traceFilterSpec.hasAnyFilterAPattern && l.traceFilterSpec.filters.length > 0) then
    if !(basicLogAllowed l logLevel traceLevel callerFile) then
      (basicLogEv0 l ++ [LogEvent.callerResolve, LogEvent.filterDecide false,
        LogEvent.entryRelease], none)
    else
      (basicLogEv0 l ++ [LogEvent.callerResolve, LogEvent.filterDecide true, LogEvent.format,
        LogEvent.write, LogEvent.entryRelease],
        some (textFormat (basicLogEntry l logLevel traceLevel ai msg nowStr)))
  else if l.logFilterSpec.filters.length > 0 || l.traceFilterSpec.filters.length > 0 then
    if !(basicLogAllowed l logLevel traceLevel "") then
      (basicLogEv0 l ++ [LogEvent.filterDecide false, LogEvent.entryRelease], none)
    else
      (basicLogEv0 l ++ [LogEvent.filterDecide true, LogEvent.format, LogEvent.write,
        LogEvent.entryRelease],
        some (textFormat (basicLogEntry l logLevel traceLevel ai msg nowStr)))
  else
    (basicLogEv0 l ++ [LogEvent.format, LogEvent.write, LogEvent.entryRelease],
      some (textFormat (basicLogEntry l logLevel traceLevel ai msg nowStr)))

/-- `logger.Trace`: bail out before `BasicLog` when the trace filter chain is
empty. -/
def traceCall (l : RLogger) (traceLevel : Int) (msg callerFile nowStr : String) :
    List LogEvent × Option String :=
  if l.traceFilterSpec.filters.length > 0 then
    basicLog l levelTrace traceLevel "" msg callerFile nowStr
  else ([], none)

/-- `logger.Critical msg` (no format string: the message is
`fmt.Sprint msg`). -/
def criticalCall (l : RLogger) (msg callerFile nowStr : String) :
    List LogEvent × Option String :=
  basicLog l levelCrit noTraceOutput "" msg callerFile nowStr

/-- `logger.Debug msg`. -/
def debugCall (l : RLogger) (msg callerFile nowStr : String) :
    List LogEvent × Option String :=
  basicLog l levelDebug noTraceOutput "" msg callerFile nowStr

/-- The line `NewLogger(Config{LogNoTime: true})` followed by
`Critical("boom")` hands to the sink (the end-to-end example of C4). -/
def criticalBoomOutput : Option String :=
  (criticalCall (newLogger "" "" true false false) "boom" "" "").2

/-! ### Contextual sub-loggers (`newSubLogger`, `subLogger.BasicLog`) -/

/-- A chain of sub-loggers over the root logger; each `sub` node records the
raw flat field list handed to `newSubLogger` (values already stringified).
`newSubLogger` also caches the rendered fragment, recomputed here by
`subInfoOf` exactly as the constructor does. -/
inductive SubChain where
  | root
  | sub (parent : SubChain) (fields : List String)
  deriving DecidableEq, Repr

/-- The cached `additionalInformation` fragment `newSubLogger` computes via
`logger.Formatter().FormatFields(fields)` (text formatter; an odd-length
list would panic there, see C10, so the cache is read only for even lists). -/
def subInfoOf (fields : List String) : String :=
  (textFormatFields fields).getD ""

/-- `logger.WithField name value` on a chain node. -/
def withField (l : SubChain) (name value : String) : SubChain :=
  SubChain.sub l [name, value]

/-- `subLogger.BasicLog` unwound to the root: each hop merges its cached
fragment with the incoming one (its own first, then the separator, then the
incoming one — unless either is empty, in which case the incoming value
alone survives) and prepends its own raw fields to the incoming list via
`append(logger.additionalFields, fields...)`.  The result is the pair that
reaches the root logger's `BasicLog`. -/
def subBasicLog : SubChain → String → List String → String × List String
  | SubChain.root, ai, fs => (ai, fs)
  | SubChain.sub p pf, ai, fs =>
    let own := subInfoOf pf
    let merged := if own.length > 0 ∧ ai.length > 0 then own ++ " " ++ ai else ai
    subBasicLog p merged (pf ++ fs)

/-- A level method (`Info` etc.) on a chain node: `internalLog` hands the
node's own cached fragment and raw fields to the parent's `BasicLog`; on the
root it is the root's own level method with no additional information. -/
def subInfoCall : SubChain → String × List String
  | SubChain.root => ("", [])
  | SubChain.sub p pf => subBasicLog p (subInfoOf pf) pf

/-- The concatenation, in derivation order, of the raw field lists of every
hop of a chain (C7's claimed shape of what reaches the root). -/
def hopFields : SubChain → List String
  | SubChain.root => []
  | SubChain.sub p pf => hopFields p ++ pf

/-- Full pipeline of `Info` on a sub-logger chain over a freshly constructed
root logger: the merged fragment and fields reach the root's `BasicLog`,
which performs the filter decision and formatting. -/
def subInfoPipeline (c : SubChain) (l : RLogger) (msg callerFile nowStr : String) :
    List LogEvent × Option String :=
  basicLog l levelInfo noTraceOutput (subInfoCall c).1 msg callerFile nowStr

end Rlog

namespace Rlog

/-! ## Theorems -/

/-- Pair-structured induction over lists, matching the two-by-two field loop. -/
theorem list_pair_induction {α : Type} {P : List α → Prop} (h0 : P [])
    (h1 : ∀ a, P [a]) (h2 : ∀ a b rest, P rest → P (a :: b :: rest)) :
    ∀ l, P l := by
  have key : ∀ (n : Nat) (l : List α), l.length ≤ n → P l := by
    intro n
    induction n with
    | zero =>
      intro l h
      cases l with
      | nil => exact h0
      | cons a t => simp at h
    | succ n ih =>
      intro l h
      match l with
      | [] => exact h0
      | [a] => exact h1 a
      | a :: b :: rest =>
        apply h2
        apply ih
        simp at h
        omega
  intro l
  exact key l.length l le_rfl

/-- The pattern test of `filter.match` agrees with the claim's phrasing
(empty pattern always matches, otherwise the glob decides on the base name). -/
theorem filterMatch_fst (f : RFilter) (filename : String) (level : Int) :
    (filterMatch f filename level).1
      = (f.Pattern = "" || globMatch f.Pattern (baseName filename)) := by
  by_cases hp : f.Pattern = ""
  · simp [filterMatch, hp]
  · by_cases hg : globMatch f.Pattern (baseName filename)
    · simp [filterMatch, hp, hg]
    · simp [filterMatch, hp, hg]

/-- When the pattern matches, the verdict is the threshold comparison. -/
theorem filterMatch_snd (f : RFilter) (filename : String) (level : Int)
    (h : (filterMatch f filename level).1 = true) :
    (filterMatch f filename level).2 = decide (level ≤ f.Level) := by
  by_cases hp : f.Pattern = ""
  · simp [filterMatch, hp]
  · by_cases hg : globMatch f.Pattern (baseName filename)
    · simp [filterMatch, hp, hg]
    · simp [filterMatch, hp, hg] at h

/-- The `matchfilters` loop is first-match-wins. -/
theorem matchLoop_eq_firstMatchDecision (filename : String) (level : Int) :
    ∀ fs : List RFilter, matchLoop filename level fs = firstMatchDecision fs filename level := by
  intro fs
  induction fs with
  | nil => simp [matchLoop, firstMatchDecision]
  | cons f rest ih =>
    have hpred := filterMatch_fst f filename level
    by_cases h : (filterMatch f filename level).1 = true
    · rw [h] at hpred
      simp only [matchLoop, firstMatchDecision, List.find?, ← hpred, h]
      simp [filterMatch_snd f filename level h]
    · have hfalse : (filterMatch f filename level).1 = false := by
        cases hh : (filterMatch f filename level).1
        · rfl
        · exact absurd hh h
      rw [hfalse] at hpred
      simp only [matchLoop, firstMatchDecision, List.find?, ← hpred, hfalse]
      simpa [firstMatchDecision] using ih

/-- C1: `matchfilters` inspects the filters in chain order; a patterned
filter participates only if its glob matches the base name of the filename,
an empty pattern always matches, and the first matching filter alone decides
the result as `level ≤ threshold` (later filters are never consulted, and no
matching filter means suppressed); in particular, for the chain
`[("a.go", WARN), ("", INFO)]`, a call from `a.go` at INFO is suppressed
while the same call from `b.go` is admitted. -/
theorem matchfilters_first_match_wins :
    (∀ (spec : RFilterSpec) (filename : String) (level : Int),
        matchfilters spec filename level = firstMatchDecision spec.filters filename level)
    ∧ matchfilters ⟨[⟨"a.go", levelWarn⟩, ⟨"", levelInfo⟩], true⟩ "a.go" levelInfo = false
    ∧ matchfilters ⟨[⟨"a.go", levelWarn⟩, ⟨"", levelInfo⟩], true⟩ "b.go" levelInfo = true := by
  refine ⟨?_, by decide, by decide⟩
  intro spec filename level
  unfold matchfilters
  by_cases h : spec.filters.length = 0
  · have : spec.filters = [] := List.length_eq_zero.mp h
    simp [this, firstMatchDecision]
  · simp only [h, if_false]
    exact matchLoop_eq_firstMatchDecision filename level spec.filters

/-- The claim-side per-character substitution of the field-value escape:
a backslash becomes two backslashes, a double quote becomes
backslash-quote, every other character is kept. -/
def escCharSpec (c : Char) : List Char :=
  if c = '\\' then ['\\', '\\'] else if c = '"' then ['\\', '"'] else [c]

/-- The text formatter's value escape substitutes each original character
exactly once (it is the concatenation of the per-character images, so no
character introduced by one substitution is re-escaped by the other). -/
theorem textEscapeValue_flatMap :
    ∀ l : List Char, textEscapeValue l = l.flatMap escCharSpec := by
  intro l
  induction l with
  | nil => simp [textEscapeValue]
  | cons c r ih =>
    by_cases hq : c = '"'
    · simp [textEscapeValue, escCharSpec, hq, ih]
    · by_cases hb : c = '\\'
      · simp [textEscapeValue, escCharSpec, hq, hb, ih]
      · simp [textEscapeValue, escCharSpec, hq, hb, ih]

/-- C3: rendering a field stringifies the value and leaves it unquoted
exactly when it is brace-wrapped or contains neither a space nor a double
quote; otherwise it is quoted with every backslash doubled and every double
quote backslash-escaped, each original character substituted exactly once;
in particular `FormatField "k" "v with space"` is `k="v with space"` and
`FormatField "k" "plain"` is `k=plain`.  Both `TextFormatter.FormatField`
and `defaultFormatter.formatField` behave this way. -/
theorem formatField_quoting :
    (∀ key s : String, braceWrapped s = true ∨ containsQuoteOrSpace s = false →
        textFormatField key s = key ++ "=" ++ s ∧
        ∀ cl : String → String, defaultFormatField cl key s = cl key ++ "=" ++ s)
    ∧ (∀ key s : String, braceWrapped s = false → containsQuoteOrSpace s = true →
        textFormatField key s
            = key ++ "=\"" ++ String.mk (s.toList.flatMap escCharSpec) ++ "\"" ∧
        ∀ cl : String → String, defaultFormatField cl key s
            = cl key ++ "=\"" ++ String.mk (s.toList.flatMap escCharSpec) ++ "\"")
    ∧ textFormatField "k" "v with space" = "k=\"v with space\""
    ∧ textFormatField "k" "plain" = "k=plain" := by
  have escEq : ∀ l : List Char, defaultEscapeValue l = textEscapeValue l := by
    intro l
    induction l with
    | nil => simp [defaultEscapeValue, textEscapeValue]
    | cons c r ih => simp [defaultEscapeValue, textEscapeValue, ih]
  refine ⟨?_, ?_, by decide, by decide⟩
  · intro key s h
    have hcond : (!braceWrapped s && containsQuoteOrSpace s) = false := by
      rcases h with h | h <;> simp [h]
    constructor
    · simp [textFormatField, hcond]
    · intro cl
      simp [defaultFormatField, hcond]
  · intro key s hb hc
    have hcond : (!braceWrapped s && containsQuoteOrSpace s) = true := by
      simp [hb, hc]
    constructor
    · simp [textFormatField, hcond, textEscapeValue_flatMap]
    · intro cl
      simp [defaultFormatField, hcond, escEq, textEscapeValue_flatMap]

end Rlog

namespace Rlog

/-- Evenness of the flat field-list length decides whether the pair loop
completes without running past the end. -/
theorem textFormatFieldsPairs_isSome :
    ∀ l : List String, (textFormatFieldsPairs l).isSome ↔ Even l.length := by
  apply list_pair_induction
  · simp [textFormatFieldsPairs]
  · intro a
    simp [textFormatFieldsPairs]
  · intro a b rest ih
    rw [textFormatFieldsPairs]
    simp only [List.length_cons, Option.isSome_map']
    rw [ih]
    constructor
    · intro h
      obtain ⟨k, hk⟩ := h
      exact ⟨k + 1, by omega⟩
    · intro h
      obtain ⟨k, hk⟩ := h
      exact ⟨k - 1, by omega⟩

/-- C10: the field-rendering loops read `fields[i]` and `fields[i+1]` for
each even `i` below the length; every such access is in bounds exactly when
the list length is even — for an odd-length list the final read hits index
`length` itself, one past the end — and accordingly the pairwise rendering
succeeds exactly on even-length lists (concretely failing on `["k"]`). -/
theorem formatFields_access_bounds :
    (∀ l : List String, (textFormatFieldsPairs l).isSome ↔ Even l.length)
    ∧ (∀ n : Nat, Even n → ∀ j ∈ fieldsReadIndices n, j < n)
    ∧ (∀ n : Nat, ¬ Even n → n ∈ fieldsReadIndices n)
    ∧ textFormatFields ["k"] = none
    ∧ defaultFormatFields ["k"] = none := by
  refine ⟨textFormatFieldsPairs_isSome, ?_, ?_, by decide, by decide⟩
  · intro n hn j hj
    rw [Nat.even_iff] at hn
    simp only [fieldsReadIndices, List.mem_flatMap, List.mem_filter, List.mem_range] at hj
    obtain ⟨i, ⟨hi, heven⟩, hji⟩ := hj
    have heven' : i % 2 = 0 := by simpa using heven
    simp only [List.mem_cons, List.mem_singleton] at hji
    rcases hji with rfl | hji
    · exact hi
    · simp at hji
      omega
  · intro n hn
    rw [Nat.even_iff] at hn
    have hn1 : n % 2 = 1 := by omega
    simp only [fieldsReadIndices, List.mem_flatMap, List.mem_filter, List.mem_range]
    refine ⟨n - 1, ⟨⟨by omega, by simp; omega⟩, ?_⟩⟩
    simp
    omega

end Rlog

namespace Rlog

/-- A malformed token leaves the whole parse state untouched (the loop body
`continue`s past it). -/
theorem parseToken_malformed (a : Bool) (st : ParseState) (t : String)
    (h : malformedTok a t = true) : parseToken a st t = st := by
  unfold malformedTok at h
  unfold parseToken
  by_cases h1 : (goSplit t '=').length = 1
  · rw [if_pos h1] at h ⊢
    rw [Option.isNone_iff_eq_none] at h
    rw [h]
  · by_cases h2 : (goSplit t '=').length = 2
    · rw [if_neg h1, if_pos h2] at h ⊢
      rw [Option.isNone_iff_eq_none] at h
      rw [h]
    · rw [if_neg h1, if_neg h2]

/-- Every filter the token loop appends carries a non-empty pattern. -/
theorem parseToken_pats_shape (a : Bool) (st : ParseState) (t : String) :
    (parseToken a st t).pats = st.pats ∨
      ∃ m lvl, m ≠ "" ∧ (parseToken a st t).pats = st.pats ++ [⟨m, lvl⟩] := by
  unfold parseToken
  by_cases h1 : (goSplit t '=').length = 1
  · simp only [h1, if_true]
    cases parseLevelToken a ((goSplit t '=').headD "") with
    | none => left; rfl
    | some lvl => left; rfl
  · by_cases h2 : (goSplit t '=').length = 2
    · simp only [h1, h2, if_true, if_false]
      cases parseLevelToken a (((goSplit t '=').drop 1).headD "") with
      | none => left; rfl
      | some lvl =>
        by_cases hm : (goSplit t '=').headD "" = ""
        · simp only [hm, if_true]
          left; rfl
        · simp only [hm, if_false]
          right
          exact ⟨(goSplit t '=').headD "", lvl, hm, rfl⟩
    · simp [h1, h2]

/-- A token that does not supply a valid global threshold leaves the
provisional global level unchanged. -/
theorem parseToken_global_untouched (a : Bool) (st : ParseState) (t : String)
    (h : ¬ touchesGlobal a t) : (parseToken a st t).globalLevel = st.globalLevel := by
  unfold touchesGlobal validGlobalTok at h
  push_neg at h
  unfold parseToken
  by_cases h1 : (goSplit t '=').length = 1
  · simp only [h1, if_true]
    cases hp : parseLevelToken a ((goSplit t '=').headD "") with
    | none => rfl
    | some lvl =>
      exact absurd (Or.inl ⟨h1, hp⟩) (h lvl)
  · by_cases h2 : (goSplit t '=').length = 2
    · simp only [h1, h2, if_true, if_false]
      cases hp : parseLevelToken a (((goSplit t '=').drop 1).headD "") with
      | none => rfl
      | some lvl =>
        by_cases hm : (goSplit t '=').headD "" = ""
        · exact absurd (Or.inr ⟨h2, hm, hp⟩) (h lvl)
        · simp only [hm, if_false]
          rfl
    · simp [h1, h2]

/-- A valid global token overwrites the provisional global level with its
own and appends nothing. -/
theorem parseToken_global_set (a : Bool) (st : ParseState) (t : String) (lvl : Int)
    (h : validGlobalTok a t lvl) :
    (parseToken a st t).globalLevel = lvl ∧ (parseToken a st t).pats = st.pats := by
  unfold validGlobalTok at h
  unfold parseToken
  rcases h with ⟨h1, hp⟩ | ⟨h2, hm, hp⟩
  · rw [if_pos h1, hp]
    exact ⟨rfl, rfl⟩
  · have h1 : ¬ (goSplit t '=').length = 1 := by omega
    rw [if_neg h1, if_pos h2, hp]
    simp only [hm, if_pos rfl]
    exact ⟨rfl, rfl⟩

/-- Folding the token loop over tokens without a valid global token keeps
the provisional global level. -/
theorem foldl_global_untouched (a : Bool) :
    ∀ (toks : List String) (st : ParseState), (∀ t ∈ toks, ¬ touchesGlobal a t) →
      (toks.foldl (parseToken a) st).globalLevel = st.globalLevel := by
  intro toks
  induction toks with
  | nil => intro st _; rfl
  | cons t r ih =>
    intro st h
    simp only [List.foldl_cons]
    rw [ih _ (fun u hu => h u (List.mem_cons_of_mem t hu))]
    exact parseToken_global_untouched a st t (h t (List.mem_cons_self t r))

/-- One loop iteration appends exactly the token's patterned contribution. -/
theorem parseToken_pats_eq (a : Bool) (st : ParseState) (t : String) :
    (parseToken a st t).pats = st.pats ++ (tokenFilter a t).toList := by
  unfold parseToken tokenFilter
  by_cases h1 : (goSplit t '=').length = 1
  · have h2 : ¬ (goSplit t '=').length = 2 := by omega
    rw [if_pos h1, if_neg h2]
    cases parseLevelToken a ((goSplit t '=').headD "") with
    | none => simp
    | some lvl => simp
  · by_cases h2 : (goSplit t '=').length = 2
    · rw [if_neg h1, if_pos h2]
      cases hp : parseLevelToken a (((goSplit t '=').drop 1).headD "") with
      | none => simp [h2]
      | some lvl =>
        by_cases hm : (goSplit t '=').head?.getD "" = ""
        · simp [h2, hm]
        · simp [h2, hm]
    · rw [if_neg h1, if_neg h2, if_neg h2]
      simp

/-- Folding the token loop appends exactly the patterned filters of the
tokens, in token order. -/
theorem foldl_pats_eq (a : Bool) :
    ∀ (toks : List String) (st : ParseState),
      (toks.foldl (parseToken a) st).pats = st.pats ++ patternedOf a toks := by
  intro toks
  induction toks with
  | nil => intro st; simp [patternedOf]
  | cons t r ih =>
    intro st
    rw [List.foldl_cons, ih, parseToken_pats_eq]
    unfold patternedOf
    rw [List.filterMap_cons]
    cases tokenFilter a t with
    | none => simp [patternedOf]
    | some f => simp [patternedOf]

/-- Folding the token loop preserves the all-patterns-non-empty invariant. -/
theorem foldl_pats_nonempty (a : Bool) :
    ∀ (toks : List String) (st : ParseState), (∀ f ∈ st.pats, f.Pattern ≠ "") →
      ∀ f ∈ (toks.foldl (parseToken a) st).pats, f.Pattern ≠ "" := by
  intro toks
  induction toks with
  | nil => intro st h; exact h
  | cons t r ih =>
    intro st h
    simp only [List.foldl_cons]
    apply ih
    rcases parseToken_pats_shape a st t with hsame | ⟨m, lvl, hm, happ⟩
    · rw [hsame]; exact h
    · rw [happ]
      intro f hf
      rcases List.mem_append.mp hf with hf | hf
      · exact h f hf
      · simp only [List.mem_singleton] at hf
        rw [hf]
        exact hm

end Rlog

namespace Rlog

/-- The filter list built on the log axis: the fold's patterned filters
followed by the single global filter. -/
theorem fromTokens_false_filters (toks : List String) (d : Int) :
    (fromTokens toks false d).filters
      = (toks.foldl (parseToken false) ⟨[], d, false⟩).pats
        ++ [⟨"", (toks.foldl (parseToken false) ⟨[], d, false⟩).globalLevel⟩] := by
  unfold fromTokens
  simp

/-- C5: for every specification string the chain is exactly the patterned
filters contributed by its well-formed `pattern=level` tokens, kept in token
order and each with a non-empty pattern (`patternedOf`), followed by at
most one pattern-less global filter, which is always last — never a
patterned filter after it (on the trace axis the global filter may be
absent, leaving just the patterned filters); when a valid global token is
followed only by tokens that do not touch the global slot, it supplies the
single global threshold (the last valid one wins); the log axis always ends
in a global filter, whose threshold is the default when no token supplies
one, the empty spec with the INFO default yielding exactly the INFO global
filter; a concrete spec with a global token between two patterned ones
shows the order. -/
theorem fromString_chain_invariant :
    (∀ (s : String) (a : Bool) (d : Int),
        (∀ f ∈ patternedOf a (goSplit s ','), f.Pattern ≠ "") ∧
        ∃ g, ((fromString s a d).filters = patternedOf a (goSplit s ',') ++ [⟨"", g⟩] ∨
          (a = true ∧ (fromString s a d).filters = patternedOf a (goSplit s ','))))
    ∧ (∀ (s : String) (d : Int),
        ∃ g, (fromString s false d).filters = patternedOf false (goSplit s ',') ++ [⟨"", g⟩])
    ∧ (∀ (l1 l2 : List String) (t : String) (d lvl : Int),
        validGlobalTok false t lvl → (∀ u ∈ l2, ¬ touchesGlobal false u) →
        (fromTokens (l1 ++ t :: l2) false d).filters
          = patternedOf false (l1 ++ t :: l2) ++ [⟨"", lvl⟩])
    ∧ (∀ (s : String) (d : Int), (∀ u ∈ goSplit s ',', ¬ touchesGlobal false u) →
        (fromString s false d).filters = patternedOf false (goSplit s ',') ++ [⟨"", d⟩])
    ∧ (fromString "" false levelInfo).filters = [⟨"", levelInfo⟩]
    ∧ fromString "a.go=WARN,INFO,ip*=ERROR" false levelInfo
        = ⟨[⟨"a.go", levelWarn⟩, ⟨"ip*", levelErr⟩, ⟨"", levelInfo⟩], true⟩ := by
  have hne : ∀ (a : Bool) (toks : List String), ∀ f ∈ patternedOf a toks, f.Pattern ≠ "" := by
    intro a toks f hf
    have h1 := foldl_pats_eq a toks ⟨[], 0, false⟩
    have h2 := foldl_pats_nonempty a toks ⟨[], 0, false⟩ (by intro f hf; simp at hf)
    apply h2
    rw [h1]
    simpa using hf
  have hpz : ∀ (a : Bool) (toks : List String) (d : Int),
      (toks.foldl (parseToken a) ⟨[], d, false⟩).pats = patternedOf a toks := by
    intro a toks d
    rw [foldl_pats_eq]
    simp
  refine ⟨?_, ?_, ?_, ?_, by decide, by decide⟩
  · intro s a d
    refine ⟨hne a (goSplit s ','),
      ((goSplit s ',').foldl (parseToken a) ⟨[], d, false⟩).globalLevel, ?_⟩
    unfold fromString fromTokens
    by_cases hc : (!a || ((goSplit s ',').foldl (parseToken a) ⟨[], d, false⟩).globalLevel
        ≠ noTraceOutput : Prop)
    · left
      simp only [hc, if_true]
      rw [hpz]
    · right
      push_neg at hc
      constructor
      · cases a with
        | true => rfl
        | false => simp at hc
      · simp only [if_neg hc]
        rw [hpz]
  · intro s d
    refine ⟨((goSplit s ',').foldl (parseToken false) ⟨[], d, false⟩).globalLevel, ?_⟩
    unfold fromString
    rw [fromTokens_false_filters, hpz]
  · intro l1 l2 t d lvl hval hrest
    rw [fromTokens_false_filters]
    have hg : ((l1 ++ t :: l2).foldl (parseToken false) ⟨[], d, false⟩).globalLevel = lvl := by
      rw [List.foldl_append, List.foldl_cons]
      rw [foldl_global_untouched false l2 _ hrest]
      exact (parseToken_global_set false _ t lvl hval).1
    rw [hg, hpz]
  · intro s d h
    unfold fromString
    rw [fromTokens_false_filters]
    rw [foldl_global_untouched false _ _ h, hpz]

/-- A split never produces an empty token list. -/
theorem splitCh_length_pos (sep : Char) : ∀ l : List Char, 0 < (splitCh sep l).length := by
  intro l
  induction l with
  | nil => simp [splitCh]
  | cons c r ih =>
    unfold splitCh
    by_cases h : c = sep
    · simp [h]
    · cases hr : splitCh sep r with
      | nil => simp [h, hr]
      | cons a t => simp [h, hr]

/-- C6 (amended): a malformed token is skipped and every remaining
well-formed token contributes exactly as it would without it; a diagnostic
is reported exactly when the token has more than one `=` or its level part
is non-empty (so a malformed token whose level part is empty, such as `=`,
is skipped silently even though the token itself is non-empty). -/
theorem fromString_malformed_skipped :
    (∀ (a : Bool) (t : String) (l1 l2 : List String) (d : Int),
        malformedTok a t = true →
        fromTokens (l1 ++ t :: l2) a d = fromTokens (l1 ++ l2) a d)
    ∧ (∀ (a : Bool) (t : String),
        (tokenIssue a t).isSome
          = (malformedTok a t
              && (decide (2 < (goSplit t '=').length) || decide (levelPartOf t ≠ ""))))
    ∧ fromString "a.go=WARN,TRACE,ERROR" false levelInfo
        = fromString "a.go=WARN,ERROR" false levelInfo
    ∧ fromString "client.go=1,x,3" true noTraceOutput
        = fromString "client.go=1,3" true noTraceOutput := by
  refine ⟨?_, ?_, by decide, by decide⟩
  · intro a t l1 l2 d h
    have hst : (l1 ++ t :: l2).foldl (parseToken a) ⟨[], d, false⟩
        = (l1 ++ l2).foldl (parseToken a) ⟨[], d, false⟩ := by
      rw [List.foldl_append, List.foldl_append, List.foldl_cons,
        parseToken_malformed a _ t h]
    unfold fromTokens
    rw [hst]
  · intro a t
    unfold tokenIssue malformedTok
    have hpos : 0 < (goSplit t '=').length := by
      unfold goSplit
      simpa using splitCh_length_pos '=' t.toList
    by_cases h1 : (goSplit t '=').length = 1
    · have hgt : ¬ (2 < (goSplit t '=').length) := by omega
      have hlp : levelPartOf t = (goSplit t '=').headD "" := by
        unfold levelPartOf
        rw [if_pos h1]
      rw [if_pos (Or.inl h1), if_pos h1, hlp]
      cases hp : parseLevelToken a ((goSplit t '=').headD "") with
      | none =>
        by_cases hne : (goSplit t '=').headD "" = ""
        · rw [if_neg (by simpa using hne)]
          simp [hgt]
          simpa using hne
        · rw [if_pos hne]
          simp [hgt]
          simpa using hne
      | some lvl => simp [hgt]
    · by_cases h2 : (goSplit t '=').length = 2
      · have hgt : ¬ (2 < (goSplit t '=').length) := by omega
        have hlp : levelPartOf t = ((goSplit t '=').drop 1).headD "" := by
          unfold levelPartOf
          rw [if_neg h1]
        rw [if_pos (Or.inr h2), if_neg h1, if_pos h2, hlp]
        cases hp : parseLevelToken a (((goSplit t '=').drop 1).headD "") with
        | none =>
          by_cases hne : ((goSplit t '=').drop 1).headD "" = ""
          · rw [if_neg (by simpa using hne)]
            simp [hgt]
            simpa using hne
          · rw [if_pos hne]
            simp [hgt]
            simpa using hne
        | some lvl => simp [hgt]
      · have hgt : 2 < (goSplit t '=').length := by omega
        rw [if_neg (not_or.mpr ⟨h1, h2⟩), if_neg h1, if_neg h2]
        simp [hgt]

/-- C6 counterexample to the claim as stated: the token `=` is non-empty and
malformed on the log axis, yet the parser reports no diagnostic for it. -/
theorem malformed_token_silent_counterexample :
    malformedTok false "=" = true ∧ "=" ≠ "" ∧ tokenIssue false "=" = none := by
  refine ⟨by decide, by decide, by decide⟩

end Rlog

namespace Rlog

/-- A chain holding only a global filter admits exactly the levels at or
below its threshold, for any filename. -/
theorem matchfilters_global (sp : RFilterSpec) (fn : String) (N T : Int)
    (h : sp.filters = [⟨"", T⟩]) : matchfilters sp fn N = decide (N ≤ T) := by
  unfold matchfilters
  rw [h]
  simp [matchLoop, filterMatch]

/-- C2: a trace call with sub-level `N` against a configured global trace
threshold `T` is emitted iff `N ≤ T`; parsing a trace-axis spec whose global
threshold is the `-1` sentinel with no patterned filters — in particular the
empty spec string — yields a chain of length zero; `Trace` returns before
any matching or formatting work when the chain is empty; and a spec that is
a single numeric token `T ≠ -1` yields exactly the global filter `("​", T)`. -/
theorem trace_emission_and_empty_chain :
    (∀ (l : RLogger) (T N : Int) (msg cf ns : String), 0 ≤ N →
        l.traceFilterSpec.filters = [⟨"", T⟩] →
        (traceCall l N msg cf ns).2.isSome = decide (N ≤ T))
    ∧ (fromString "" true noTraceOutput).filters = []
    ∧ (∀ toks : List String,
        (toks.foldl (parseToken true) ⟨[], noTraceOutput, false⟩).pats = [] →
        (toks.foldl (parseToken true) ⟨[], noTraceOutput, false⟩).globalLevel = noTraceOutput →
        (fromTokens toks true noTraceOutput).filters = [])
    ∧ (∀ (l : RLogger) (N : Int) (msg cf ns : String),
        l.traceFilterSpec.filters = [] → traceCall l N msg cf ns = ([], none))
    ∧ (∀ (tok : String) (T : Int), goSplit tok ',' = [tok] → goSplit tok '=' = [tok] →
        atoi? tok = some T → T ≠ noTraceOutput →
        (fromString tok true noTraceOutput).filters = [⟨"", T⟩])
    ∧ (traceCall (newLogger "" "3" true false false) 3 "m" "" "").2.isSome = true
    ∧ (traceCall (newLogger "" "3" true false false) 4 "m" "" "").2.isSome = false := by
  refine ⟨?_, by decide, ?_, ?_, ?_, by decide, by decide⟩
  · intro l T N msg cf ns hN h
    have hN1 : ¬ (N = noTraceOutput) := by
      unfold noTraceOutput
      omega
    have hlen : l.traceFilterSpec.filters.length > 0 := by
      rw [h]
      simp
    unfold traceCall
    rw [if_pos hlen]
    unfold basicLog
    have hm : ∀ fn, matchfilters l.traceFilterSpec fn N = decide (N ≤ T) :=
      fun fn => matchfilters_global l.traceFilterSpec fn N T h
    by_cases hbr : (l.settingShowCallerInfo || l.settingShowGoroutineID
        || (l.logFilterSpec.hasAnyFilterAPattern && decide (l.logFilterSpec.filters.length > 0))
        || (l.traceFilterSpec.hasAnyFilterAPattern
            && decide (l.traceFilterSpec.filters.length > 0))) = true
    · rw [if_pos hbr]
      unfold basicLogAllowed
      rw [if_neg hN1, hm cf]
      cases hd : decide (N ≤ T) with
      | true => simp
      | false => simp
    · rw [if_neg (by simpa using hbr)]
      have hor : (decide (l.logFilterSpec.filters.length > 0)
          || decide (l.traceFilterSpec.filters.length > 0)) = true := by
        simp [hlen]
      rw [if_pos hor]
      unfold basicLogAllowed
      rw [if_neg hN1, hm ""]
      cases hd : decide (N ≤ T) with
      | true => simp
      | false => simp
  · intro toks h1 h2
    simp [fromTokens, h1, h2]
  · intro l N msg cf ns h
    unfold traceCall
    rw [h]
    simp
  · intro tok T h1 h2 hp hT
    unfold fromString
    rw [h1]
    have hstep : parseToken true ⟨[], noTraceOutput, false⟩ tok
        = ⟨[], T, false⟩ := by
      unfold parseToken
      rw [h2]
      simp only [List.length_singleton, if_pos rfl]
      unfold parseLevelToken
      simp [hp]
    unfold fromTokens
    rw [List.foldl_cons, List.foldl_nil, hstep]
    simp [hT]

end Rlog

namespace Rlog

/-- C4 counterexample: the cited text formatter emits the level token
unquoted, so the end-to-end line is not the claimed
`level="CRITICAL" msg="boom"` line. -/
theorem criticalBoom_quoted_level_counterexample :
    criticalBoomOutput ≠ some "level=\"CRITICAL\" msg=\"boom\"\n" := by
  decide

/-- C4 (amended): a logger built with `LogNoTime` set and the key=value
(text) formatter emits for `Critical("boom")` exactly the byte line
`level=CRITICAL msg="boom"` followed by a newline — no date segment, the
level token unquoted, the message quoted, nothing else. -/
theorem criticalBoom_exact_line :
    criticalBoomOutput = some "level=CRITICAL msg=\"boom\"\n" := by
  decide

/-- C8 counterexample: a suppressed call (a `Debug` under the default INFO
threshold) produces no output, yet its trace of steps does acquire an
`Entry` from the pool and does build the message string before the filter
decision. -/
theorem suppressed_call_allocates_counterexample :
    (basicLog (newLogger "" "" true false false) levelDebug noTraceOutput "" "dbg" "" "").2
        = none
    ∧ LogEvent.entryAcquire
        ∈ (basicLog (newLogger "" "" true false false) levelDebug noTraceOutput "" "dbg" "" "").1
    ∧ LogEvent.messageBuild
        ∈ (basicLog (newLogger "" "" true false false) levelDebug noTraceOutput "" "dbg" "" "").1 := by
  refine ⟨by decide, by decide, by decide⟩

/-- C9 counterexample: on the message `a"b` the text style's message bytes
escape the quote (to backslash-backslash-quote) while the aligned-column
style emits the message bytes verbatim, so the two styles do not escape
message quotes identically. -/
theorem message_escape_differs_counterexample :
    escMsgText "a\"b" ≠ "a\"b"
    ∧ textFormat ⟨"", levelNone, noTraceOutput, "", "a\"b"⟩
        = "level=NONE msg=\"" ++ escMsgText "a\"b" ++ "\"\n"
    ∧ defaultFormat ⟨"", levelNone, noTraceOutput, [], "a\"b"⟩
        = some ("NONE[00000] " ++ "a\"b" ++ "\n") := by
  refine ⟨by decide, by decide, by decide⟩

/-- C9 (amended): the two formatting styles apply the identical
quote/backslash escaping to field values — their field renderers agree
outright once colors are disabled — but not to message text: the text style
rewrites each double quote of the message while the aligned-column style
emits the message unescaped, so the message bytes agree exactly when the
message contains no double quote. -/
theorem formatters_escape_comparison :
    (∀ l : List Char, textEscapeValue l = defaultEscapeValue l)
    ∧ (∀ key s : String, textFormatField key s = defaultFormatField id key s)
    ∧ (∀ m : String, escMsgText m = m ↔ ¬ '"' ∈ m.toList) := by
  have escEq : ∀ l : List Char, textEscapeValue l = defaultEscapeValue l := by
    intro l
    induction l with
    | nil => simp [defaultEscapeValue, textEscapeValue]
    | cons c r ih => simp [defaultEscapeValue, textEscapeValue, ih]
  have flatEq : ∀ l : List Char,
      (l.flatMap (fun c => if c = '"' then ['\\', '\\', '"'] else [c]) = l) ↔ ¬ '"' ∈ l := by
    intro l
    induction l with
    | nil => simp
    | cons c r ih =>
      by_cases hc : c = '"'
      · subst hc
        simp only [List.flatMap_cons, if_pos rfl]
        constructor
        · intro h
          have := congrArg List.head? h
          simp at this
        · intro h
          simp at h
      · simp only [List.flatMap_cons, if_neg hc]
        constructor
        · intro h
          simp only [List.singleton_append, List.cons.injEq] at h
          intro hmem
          rcases List.mem_cons.mp hmem with hmem | hmem
          · exact hc hmem.symm
          · exact (ih.mp h.2) hmem
        · intro h
          have hr : ¬ '"' ∈ r := fun hm => h (List.mem_cons_of_mem c hm)
          simp [ih.mpr hr]
  refine ⟨escEq, ?_, ?_⟩
  · intro key s
    unfold textFormatField defaultFormatField
    rw [escEq]
    rfl
  · intro m
    unfold escMsgText
    constructor
    · intro h
      have hdata : m.toList.flatMap (fun c => if c = '"' then ['\\', '\\', '"'] else [c])
          = m.toList := congrArg String.toList h
      exact (flatEq m.toList).mp hdata
    · intro h
      have := (flatEq m.toList).mpr h
      rw [this]
      cases m
      rfl

end Rlog

namespace Rlog

/-- C8 (amended): a call the filter decision suppresses produces nothing
observable — the formatter is never invoked and no write to a sink occurs —
but the call does acquire an `Entry` from the pool, build the message string
and (when time logging is on) format the time stamp before the enablement
check, releasing the `Entry` on exit. -/
theorem suppressed_call_no_output (l : RLogger) (lvl tl : Int) (ai msg cf ns : String)
    (h : (basicLog l lvl tl ai msg cf ns).2 = none) :
    LogEvent.format ∉ (basicLog l lvl tl ai msg cf ns).1
      ∧ LogEvent.write ∉ (basicLog l lvl tl ai msg cf ns).1 := by
  have hev : LogEvent.format ∉ basicLogEv0 l ∧ LogEvent.write ∉ basicLogEv0 l := by
    unfold basicLogEv0
    cases hnt : l.logNoTime <;> simp
  unfold basicLog at h ⊢
  split_ifs at h ⊢ <;> simp_all

/-- Witness for the suppression theorem: a `Debug` call against the default
INFO threshold is suppressed, and the theorem applies to it. -/
theorem suppressed_call_no_output_witness :
    (basicLog (newLogger "" "" true false false) levelDebug noTraceOutput "" "dbg" "" "").2 = none
    ∧ (LogEvent.format
        ∉ (basicLog (newLogger "" "" true false false) levelDebug noTraceOutput "" "dbg" "" "").1
      ∧ LogEvent.write
        ∉ (basicLog (newLogger "" "" true false false) levelDebug noTraceOutput "" "dbg" "" "").1) :=
  ⟨by decide,
    suppressed_call_no_output (newLogger "" "" true false false) levelDebug noTraceOutput
      "" "dbg" "" "" (by decide)⟩

end Rlog

namespace Rlog

/-- Whether an event is the enablement/filter decision. -/
def isDecideEvent : LogEvent → Bool
  | LogEvent.filterDecide _ => true
  | _ => false

/-- Number of enablement decisions in one call's event trace. -/
def countDecide (evs : List LogEvent) : Nat := evs.countP isDecideEvent

/-- Number of formatter invocations in one call's event trace. -/
def countFormat (evs : List LogEvent) : Nat := evs.count LogEvent.format

/-- C7: for every sub-logger chain and per-call field list, the fields
forwarded to the root logger are the concatenation, in derivation order, of
each hop's fields followed by the call-site fields (so
`WithField "a" 1 |> WithField "b" 2 |> Info` delivers the fragment
`a=1 b=2` and the raw list `[a,1,b,2]` to the root), and the root's
`BasicLog` performs the enablement decision exactly once per call —
and the formatting exactly once on an emitted call, never on a suppressed
one — regardless of chain depth. -/
theorem sublogger_composition :
    (∀ (c : SubChain) (ai : String) (fs : List String),
        (subBasicLog c ai fs).2 = hopFields c ++ fs)
    ∧ (∀ c : SubChain, (subInfoCall c).2 = hopFields c)
    ∧ subInfoCall (withField (withField SubChain.root "a" "1") "b" "2")
        = ("a=1 b=2", ["a", "1", "b", "2"])
    ∧ (∀ (c : SubChain) (sL sT : String) (nt : Bool) (msg cf ns : String),
        countDecide (subInfoPipeline c (newLogger sL sT nt false false) msg cf ns).1 = 1
        ∧ countFormat (subInfoPipeline c (newLogger sL sT nt false false) msg cf ns).1
            = (if (subInfoPipeline c (newLogger sL sT nt false false) msg cf ns).2.isSome
               then 1 else 0)) := by
  have h1 : ∀ (c : SubChain) (ai : String) (fs : List String),
      (subBasicLog c ai fs).2 = hopFields c ++ fs := by
    intro c
    induction c with
    | root => intro ai fs; simp [subBasicLog, hopFields]
    | sub p pf ih =>
      intro ai fs
      simp only [subBasicLog, hopFields]
      rw [ih, List.append_assoc]
  refine ⟨h1, ?_, by decide, ?_⟩
  · intro c
    cases c with
    | root => simp [subInfoCall, hopFields]
    | sub p pf =>
      simp only [subInfoCall, hopFields]
      exact h1 p _ pf
  · intro c sL sT nt msg cf ns
    have hlen : (newLogger sL sT nt false false).logFilterSpec.filters.length > 0 := by
      show (fromString sL false levelInfo).filters.length > 0
      unfold fromString
      rw [fromTokens_false_filters]
      simp
    have hev0d : countDecide (basicLogEv0 (newLogger sL sT nt false false)) = 0 := by
      unfold countDecide basicLogEv0 newLogger
      cases nt <;> simp [isDecideEvent]
    have hev0f : countFormat (basicLogEv0 (newLogger sL sT nt false false)) = 0 := by
      unfold countFormat basicLogEv0 newLogger
      cases nt <;> simp
    unfold subInfoPipeline basicLog
    split_ifs with hb1 hb2 hb3 hb4 <;>
      simp_all [countDecide, countFormat, List.countP_append, List.count_append,
        isDecideEvent]

end Rlog
